import Mathlib

set_option maxRecDepth 10000

/-!
Verification development for the `ai-code-reviewer.py` script
(`scripts/ai-code-reviewer.py`).  The script's diff parser, suggestion
filter, file classifier and file filter are embedded shallowly: Python
strings become `List Char`, Python `int` becomes `Int`, the Python `set`
of valid comment lines becomes `Finset Int`.  Python's `\d` in the hunk
header regex is modelled as ASCII digits and `str.strip` as stripping the
ASCII whitespace characters, which agree with Python on all inputs the
script meets (unified-diff patches are ASCII).
-/

/-- Model of Python `str.split('\n')`: always returns at least one
(possibly empty) piece, one per newline boundary. -/
def splitLines : List Char → List (List Char)
  | [] => [[]]
  | c :: cs =>
    if c = '\n' then [] :: splitLines cs
    else
      match splitLines cs with
      | [] => [[c]]
      | l :: ls => (c :: l) :: ls

/-- Substring test: model of Python `needle in hay` for strings. -/
def containsSub (needle : List Char) : List Char → Bool
  | [] => List.isPrefixOf needle []
  | c :: cs => List.isPrefixOf needle (c :: cs) || containsSub needle cs

/-- Model of Python `int(...)` applied to a nonempty string of decimal
digits (`re` group `\d+`). -/
def natOfDigits (ds : List Char) : Nat :=
  ds.foldl (fun n c => 10 * n + (c.toNat - 48)) 0

/-- Maximal leading run of decimal digits of a string, with the rest. -/
def digitSpan (cs : List Char) : List Char × List Char :=
  (cs.takeWhile Char.isDigit, cs.dropWhile Char.isDigit)

/-- After the first regex group `(\d+)` the pattern
`(,\d+)? @@` must match: either a comma followed by a nonempty digit run
and then " @@", or " @@" directly.  Backtracking inside a maximal digit
run can never succeed (the following character would again be a digit),
so this function is an exact model of the Python engine's behaviour. -/
def afterFirstGroup (t : List Char) : Bool :=
  match t with
  | ',' :: u =>
    let s := digitSpan u
    !s.1.isEmpty && List.isPrefixOf " @@".data s.2
  | _ => List.isPrefixOf " @@".data t

/-- Attempt to match ` \+(\d+)(,\d+)? @@` at the head of the string,
returning the value of the first group. -/
def matchPlusGroup : List Char → Option Nat
  | ' ' :: '+' :: rest =>
    let s := digitSpan rest
    if s.1.isEmpty then none
    else if afterFirstGroup s.2 then some (natOfDigits s.1) else none
  | _ => none

/-- The regex `@@ .* \+(\d+)(,\d+)? @@` with a greedy `.*`: among all
positions where the tail pattern matches, the engine commits to the
rightmost one.  The recursion therefore prefers the result found in the
tail of the string. -/
def findGreedy : List Char → Option Nat
  | [] => none
  | c :: cs =>
    match findGreedy cs with
    | some n => some n
    | none => matchPlusGroup (c :: cs)

/-- Try to start the whole pattern (literal "@@ ") at the head. -/
def tryHunkAt : List Char → Option Nat
  | '@' :: '@' :: ' ' :: rest => findGreedy rest
  | _ => none

/-- Model of `re.search(r'@@ .* \+(\d+)(,\d+)? @@', line)`, returning
`int(match.group(1))` when a match exists: the leftmost start position
wins, and at that position the greedy `.*` picks the rightmost tail. -/
def reSearchHunk : List Char → Option Nat
  | [] => none
  | c :: cs =>
    match tryHunkAt (c :: cs) with
    | some n => some n
    | none => reSearchHunk cs

/-- Origin tag of a diff line (the `'type'` field of the Python dict). -/
inductive LineType where
  | added
  | context
deriving DecidableEq, Repr

/-- One record of the list built by `parse_diff_for_review`. -/
structure DiffLine where
  line_number : Int
  content : List Char
  type : LineType
deriving DecidableEq, Repr

/-- The mutable state of the parsing loop in `parse_diff_for_review`. -/
structure ParseState where
  new_line_number : Int
  context_lines : List DiffLine
  valid_comment_lines : Finset Int
deriving DecidableEq

/-- State at the top of the loop: counter 0, no records, empty set. -/
def initState : ParseState := ⟨0, [], ∅⟩

/-- One iteration of the `for line in lines` loop of
`parse_diff_for_review`: hunk headers reset the counter via the regex,
lines starting with `+` are recorded as added and made valid comment
targets, lines starting with a space are recorded as context, and every
other line is skipped. -/
def parseLine (st : ParseState) (line : List Char) : ParseState :=
  if List.isPrefixOf "@@".data line then
    match reSearchHunk line with
    | some n => { st with new_line_number := (n : Int) - 1 }
    | none => st
  else if List.isPrefixOf "+".data line then
    let m := st.new_line_number + 1
    { new_line_number := m,
      context_lines := st.context_lines ++ [⟨m, line.tail, LineType.added⟩],
      valid_comment_lines := insert m st.valid_comment_lines }
  else if List.isPrefixOf " ".data line then
    let m := st.new_line_number + 1
    { st with
      new_line_number := m,
      context_lines := st.context_lines ++ [⟨m, line.tail, LineType.context⟩] }
  else st

/-- Full run of the parsing loop over all lines of the patch. -/
def parseFull (patch : List Char) : ParseState :=
  (splitLines patch).foldl parseLine initState

/-- Model of `parse_diff_for_review`: the record list is truncated to its
first 300 entries (`context_lines[:300]`), the set of valid comment lines
is returned untruncated. -/
def parse_diff_for_review (patch : List Char) : List DiffLine × Finset Int :=
  ((parseFull patch).context_lines.take 300, (parseFull patch).valid_comment_lines)

/-- Value of the `new_line_number` counter after the first `i` loop
iterations, used to express properties of intermediate parser states. -/
def counterAfter (patch : List Char) (i : Nat) : Int :=
  (((splitLines patch).take i).foldl parseLine initState).new_line_number

/-- Statement predicate: the valid-comment set of a parser state holds
exactly the line numbers of its added records. -/
def ValidMatchesAdded (st : ParseState) : Prop :=
  ∀ n : Int, n ∈ st.valid_comment_lines ↔
    ∃ r ∈ st.context_lines, r.type = LineType.added ∧ r.line_number = n

def cexPatch : List Char :=
  "@@ -1,0 +1,301 @@".data ++ (List.replicate 301 ('\n' :: '+' :: 'x' :: [])).flatten

/-- One element of the JSON array returned by the model, as consumed by
`review_file_inline`: either an object carrying both required keys
`'line'` and `'comment'`, or anything else (an entry missing one of the
keys), which the loop skips. -/
inductive RawSuggestion where
  | malformed
  | entry (line : Int) (comment : List Char)
deriving DecidableEq, Repr

/-- A suggestion that survived the key check, i.e. an element of the
`valid_suggestions` list. -/
structure Suggestion where
  line : Int
  comment : List Char
deriving DecidableEq, Repr

/-- Limit on comments per file (`MAX_COMMENTS_PER_FILE = 5`). -/
def MAX_COMMENTS_PER_FILE : Nat := 5

/-- The `for suggestion in suggestions` loop of `review_file_inline`,
with `acc` playing the role of the `valid_suggestions` list: entries
missing keys or with a line number outside the valid set are skipped with
`continue`; an accepted entry is appended, and once the accumulator
reaches `MAX_COMMENTS_PER_FILE` entries the loop breaks. -/
def filterSuggestionsAux (valid : Finset Int) :
    List Suggestion → List RawSuggestion → List Suggestion
  | acc, [] => acc
  | acc, RawSuggestion.malformed :: rest => filterSuggestionsAux valid acc rest
  | acc, RawSuggestion.entry l c :: rest =>
    if l ∈ valid then
      let acc' := acc ++ [⟨l, c⟩]
      if MAX_COMMENTS_PER_FILE ≤ acc'.length then acc'
      else filterSuggestionsAux valid acc' rest
    else filterSuggestionsAux valid acc rest

/-- The `valid_suggestions` list produced from the model response. -/
def filterSuggestions (valid : Finset Int) (resp : List RawSuggestion) : List Suggestion :=
  filterSuggestionsAux valid [] resp

/-- The well-formed entries of the response whose line number is in the
valid set, in response order and without any cap; used to state what the
loop keeps. -/
def acceptedEntries (valid : Finset Int) (resp : List RawSuggestion) : List Suggestion :=
  resp.filterMap fun e =>
    match e with
    | RawSuggestion.malformed => none
    | RawSuggestion.entry l c => if l ∈ valid then some ⟨l, c⟩ else none

/-- ASCII whitespace stripped by Python's `str.strip()`. -/
def isPySpace (c : Char) : Bool :=
  c.toNat = 32 || c.toNat = 9 || c.toNat = 10 || c.toNat = 13 ||
  c.toNat = 11 || c.toNat = 12

/-- Model of `str.strip()`: drop whitespace from both ends. -/
def pythonStrip (s : List Char) : List Char :=
  ((s.dropWhile isPySpace).reverse.dropWhile isPySpace).reverse

/-- Model of `str.endswith(('.', '!', '?'))`. -/
def endsWithPunct (s : List Char) : Bool :=
  List.isSuffixOf ".".data s || List.isSuffixOf "!".data s ||
  List.isSuffixOf "?".data s

/-- Comment normalisation in the posting loop: strip the text, and append
a period only when the result is nonempty (truthy) and does not already
end in terminal punctuation. -/
def normalizeComment (c : List Char) : List Char :=
  let t := pythonStrip c
  if !t.isEmpty && !endsWithPunct t then t ++ ['.'] else t

/-- The (line, body) pairs handed to `post_inline_comment`, one per
accepted suggestion, in order. -/
def postedComments (valid : Finset Int) (resp : List RawSuggestion) : List (Int × List Char) :=
  (filterSuggestions valid resp).map fun s => (s.line, normalizeComment s.comment)

/-- The `has_ui_tests` field of `get_file_context_info`. -/
def has_ui_tests (content : List Char) : Bool :=
  containsSub "XCUIApplication".data content || containsSub "XCUIElement".data content

/-- The `has_unit_tests` field of `get_file_context_info`. -/
def has_unit_tests (content : List Char) : Bool :=
  containsSub "XCTestCase".data content || containsSub "@testable".data content

/-- The disjunction guarding the `'Test'` branch of `categorize_file`
(`re.search(r'Test\.swift$', ...)` is a suffix test since the pattern is
literal up to the escaped dot and the end anchor). -/
def testIndicator (filename content : List Char) : Bool :=
  List.isSuffixOf "Test.swift".data filename ||
  containsSub "/Tests/".data filename ||
  containsSub "Test".data filename ||
  containsSub "Mock".data filename ||
  containsSub "Stub".data filename ||
  has_ui_tests content ||
  has_unit_tests content ||
  containsSub "XCTest".data content ||
  containsSub "@testable".data content ||
  containsSub "XCTAssert".data content ||
  containsSub "XCUIApplication".data content

/-- The `swiftui_indicators` list of `categorize_file`. -/
def swiftui_indicators : List (List Char) :=
  ["import SwiftUI", "SwiftUI.", "View", "@State", "@Binding",
   "@ObservableObject", "@Observable", "@StateObject", "@EnvironmentObject",
   "NavigationView", "NavigationStack", "VStack", "HStack", "ZStack",
   "Button", "Text", "Image", "ScrollView", "List", "Form",
   "NavigationSplitView", "Grid", "LazyVStack", "LazyHStack"].map String.data

/-- The `uikit_indicators` list of `categorize_file`. -/
def uikit_indicators : List (List Char) :=
  ["import UIKit", "UIView", "UIViewController", "UITableView",
   "UICollectionView", "UIButton", "UILabel", "UIImageView",
   "viewDidLoad", "viewWillAppear", "IBOutlet", "IBAction",
   "UINavigationController", "UITabBarController", "UIStoryboard"].map String.data

/-- The `config_files` list of `categorize_file`. -/
def config_files : List (List Char) :=
  [".plist", ".xcconfig", ".json", ".yaml", ".yml",
   "Package.swift", "Podfile", "Cartfile", ".entitlements"].map String.data

/-- Test `any(indicator in content for indicator in swiftui_indicators)`. -/
def swiftuiIndicatorFound (content : List Char) : Bool :=
  swiftui_indicators.any fun s => containsSub s content

/-- Test `any(indicator in content for indicator in uikit_indicators)`. -/
def uikitIndicatorFound (content : List Char) : Bool :=
  uikit_indicators.any fun s => containsSub s content

/-- Test `any(filename.endswith(ext) or ext in filename for ext in config_files)`. -/
def configIndicatorFound (filename : List Char) : Bool :=
  config_files.any fun e => List.isSuffixOf e filename || containsSub e filename

/-- Model of `categorize_file`: first match wins among the test branch,
the `.swift` branches (SwiftUI indicators, UIKit indicators, the three
special app file names with an `@main` check, generic Swift), the config
branch, and the final `'Swift'` fallback. -/
def categorize_file (filename content : List Char) : String :=
  if testIndicator filename content then "Test"
  else if List.isSuffixOf ".swift".data filename then
    if swiftuiIndicatorFound content then "SwiftUI"
    else if uikitIndicatorFound content then "UI"
    else if filename = "AppDelegate.swift".data ∨
            filename = "SceneDelegate.swift".data ∨
            filename = "App.swift".data then
      if containsSub "@main".data content then "SwiftUI" else "UI"
    else "Swift"
  else if configIndicatorFound filename then "Config"
  else "Swift"

/-- The module-level `EXCLUDE_PATTERNS` list, verbatim (including the
duplicated `'.pdf'` entry). -/
def EXCLUDE_PATTERNS : List (List Char) :=
  [".xcodeproj", ".xcworkspace", ".xcassets", ".pbxproj", ".xcuserstate",
   ".xcscheme", ".xcbkptlist", ".xcscmblueprint", ".xccheckout",
   ".storyboard", ".xib", ".nib",
   ".plist", ".entitlements", ".mobileprovision", ".p12", ".cer",
   ".lock", "Package.resolved", "Package.pins",
   ".png", ".jpg", ".jpeg", ".gif", ".svg", ".pdf", ".ico", ".icns",
   ".mp3", ".mp4", ".m4v", ".mov", ".wav", ".aiff",
   ".md", ".txt", ".rtf", ".pdf",
   ".json", ".yaml", ".yml", ".xml", ".csv", ".sqlite", ".db",
   "Generated", "Derived", "DerivedData", ".derived",
   "xcuserdata", "UserInterfaceState.xcuserstate",
   ".zip", ".tar", ".gz", ".rar", ".7z",
   ".swp", ".tmp", "~", ".bak",
   ".framework", ".dylib", ".a",
   ".ipa", ".app", ".dSYM"].map String.data

/-- The fields of one element of the GitHub changed-file list that
`should_review_file` inspects; `patch` is `none` when the key is absent
from the JSON object. -/
structure ChangedFile where
  filename : List Char
  status : List Char
  patch : Option (List Char)
deriving DecidableEq, Repr

/-- Model of `should_review_file`: reject removed files, then files whose
name contains an exclude pattern, then files whose `patch` is absent or
empty (Python falsy). -/
def should_review_file (f : ChangedFile) : Bool :=
  if f.status = "removed".data then false
  else if EXCLUDE_PATTERNS.any (fun p => containsSub p f.filename) then false
  else if (f.patch.getD []).isEmpty then false
  else true

theorem parseLine_skip (st : ParseState) (l : List Char)
    (h1 : List.isPrefixOf "@@".data l = false)
    (h2 : List.isPrefixOf "+".data l = false)
    (h3 : List.isPrefixOf " ".data l = false) :
    parseLine st l = st := by
  simp [parseLine, h1, h2, h3]

theorem foldl_parseLine_skip (lines : List (List Char)) (st : ParseState)
    (h : ∀ l ∈ lines, List.isPrefixOf "@@".data l = false ∧
      List.isPrefixOf "+".data l = false ∧ List.isPrefixOf " ".data l = false) :
    lines.foldl parseLine st = st := by
  induction lines with
  | nil => rfl
  | cons l ls ih =>
    have hl := h l (List.mem_cons_self l ls)
    rw [List.foldl_cons, parseLine_skip st l hl.1 hl.2.1 hl.2.2]
    exact ih fun x hx => h x (List.mem_cons_of_mem l hx)

theorem parseLine_counter_lb (st : ParseState) (l : List Char)
    (h : -1 ≤ st.new_line_number) : -1 ≤ (parseLine st l).new_line_number := by
  unfold parseLine
  by_cases hA : List.isPrefixOf "@@".data l
  · simp only [hA, if_true]
    cases hm : reSearchHunk l with
    | none => exact h
    | some n =>
      show -1 ≤ (n : Int) - 1
      omega
  · by_cases hP : List.isPrefixOf "+".data l
    · simp only [hA, hP, if_true, if_false]
      show -1 ≤ st.new_line_number + 1
      omega
    · by_cases hS : List.isPrefixOf " ".data l
      · simp only [hA, hP, hS, if_true, if_false]
        show -1 ≤ st.new_line_number + 1
        omega
      · simp only [hA, hP, hS, if_false]
        exact h

theorem foldl_parseLine_counter_lb (lines : List (List Char)) (st : ParseState)
    (h : -1 ≤ st.new_line_number) :
    -1 ≤ (lines.foldl parseLine st).new_line_number := by
  induction lines generalizing st with
  | nil => exact h
  | cons l ls ih => exact ih (parseLine st l) (parseLine_counter_lb st l h)

/-- C4 (amended): during a parse the `new_line_number` counter never goes
below -1 (it reaches -1 exactly when a hunk header advertises new-file
start 0, as in a whole-file deletion hunk), and a hunk header line on
which the extraction pattern fails to match leaves the whole parser state
unchanged.  The original claim (counter never negative) fails, see the
counterexample. -/
theorem claim_C4 (patch : List Char) (i : Nat) (st : ParseState) (l : List Char)
    (hHdr : List.isPrefixOf "@@".data l = true) (hNoMatch : reSearchHunk l = none) :
    -1 ≤ counterAfter patch i ∧ parseLine st l = st := by
  constructor
  · unfold counterAfter
    exact foldl_parseLine_counter_lb _ initState (by decide)
  · simp [parseLine, hHdr, hNoMatch]

/-- C4 counterexample: after the hunk header `@@ -1,0 +0,0 @@` (a valid
header for a hunk deleting every line of the file) the counter is -1. -/
theorem claim_C4_cex : counterAfter ("@@ -1,0 +0,0 @@").data 1 = -1 := by decide

theorem claim_C4_witness :
    -1 ≤ counterAfter ("@@ -1,0 +0,0 @@").data 1 ∧
      parseLine initState ("@@ junk").data = initState :=
  claim_C4 _ 1 initState _ (by decide) (by decide)

/-- C5 (amended): a patch none of whose lines starts with `@@`, `+` or a
space parses to the empty record list and the empty valid set.  The
original claim (no hunk header alone suffices) fails: lines marked `+` or
space are processed even before any hunk header, see the
counterexample. -/
theorem claim_C5 (patch : List Char)
    (h : ∀ l ∈ splitLines patch, List.isPrefixOf "@@".data l = false ∧
      List.isPrefixOf "+".data l = false ∧ List.isPrefixOf " ".data l = false) :
    parse_diff_for_review patch = ([], ∅) := by
  unfold parse_diff_for_review parseFull
  rw [foldl_parseLine_skip _ _ h]
  rfl

/-- C5 counterexample: the patch `"+a"` contains no hunk header, yet the
parser emits a record numbered 1 and marks line 1 as commentable. -/
theorem claim_C5_cex :
    (∀ l ∈ splitLines ("+a").data, List.isPrefixOf "@@".data l = false) ∧
      parse_diff_for_review ("+a").data ≠ ([], ∅) := by decide

theorem claim_C5_witness : parse_diff_for_review ("-a\nfoo").data = ([], ∅) :=
  claim_C5 _ (by decide)

/-- C6 (amended): a line that starts with none of `@@`, `+`, a space is
skipped: no DiffLine record, no valid line, counter untouched.  The
original claim's example is wrong, though: a `+++` new-file metadata
header starts with `+` and is treated as an added line, see the
counterexample. -/
theorem claim_C6 (st : ParseState) (l : List Char)
    (h1 : List.isPrefixOf "@@".data l = false)
    (h2 : List.isPrefixOf "+".data l = false)
    (h3 : List.isPrefixOf " ".data l = false) :
    parseLine st l = st :=
  parseLine_skip st l h1 h2 h3

/-- C6 counterexample: a `+++ b/foo` metadata line is recorded as an
added line (content `"++ b/foo"`) and its number enters the valid set,
instead of being skipped. -/
theorem claim_C6_cex :
    parse_diff_for_review ("@@ -1,2 +1,2 @@\n+++ b/foo").data =
      ([⟨1, ("++ b/foo").data, LineType.added⟩], ({1} : Finset Int)) := by decide

theorem claim_C6_witness : parseLine initState ("-removed").data = initState :=
  claim_C6 _ _ (by decide) (by decide) (by decide)

/-- C7: the single-hunk example patch parses to exactly the three
expected records and the valid set containing only line 11. -/
theorem claim_C7 :
    parse_diff_for_review ("@@ -1,3 +10,3 @@\n a\n+b\n c").data =
      ([⟨10, "a".data, LineType.context⟩, ⟨11, "b".data, LineType.added⟩,
        ⟨12, "c".data, LineType.context⟩], ({11} : Finset Int)) := by decide

theorem parseLine_inv (st : ParseState) (l : List Char)
    (h : ValidMatchesAdded st) : ValidMatchesAdded (parseLine st l) := by
  unfold ValidMatchesAdded at h ⊢
  unfold parseLine
  by_cases hA : List.isPrefixOf "@@".data l
  · simp only [hA, if_true]
    cases reSearchHunk l with
    | none => exact h
    | some n => exact h
  · by_cases hP : List.isPrefixOf "+".data l
    · simp only [hA, hP, if_false, if_true]
      intro n
      show n ∈ insert (st.new_line_number + 1) st.valid_comment_lines ↔
        ∃ r ∈ st.context_lines ++
          [⟨st.new_line_number + 1, l.tail, LineType.added⟩],
          r.type = LineType.added ∧ r.line_number = n
      simp only [Finset.mem_insert, List.mem_append, List.mem_singleton]
      constructor
      · rintro (rfl | hn)
        · exact ⟨⟨st.new_line_number + 1, l.tail, LineType.added⟩,
            Or.inr rfl, rfl, rfl⟩
        · obtain ⟨r, hr, ht, hl⟩ := (h n).1 hn
          exact ⟨r, Or.inl hr, ht, hl⟩
      · rintro ⟨r, hr | rfl, ht, hl⟩
        · exact Or.inr ((h n).2 ⟨r, hr, ht, hl⟩)
        · exact Or.inl hl.symm
    · by_cases hS : List.isPrefixOf " ".data l
      · simp only [hA, hP, hS, if_false, if_true]
        intro n
        show n ∈ st.valid_comment_lines ↔
          ∃ r ∈ st.context_lines ++
            [⟨st.new_line_number + 1, l.tail, LineType.context⟩],
            r.type = LineType.added ∧ r.line_number = n
        simp only [List.mem_append, List.mem_singleton]
        constructor
        · intro hn
          obtain ⟨r, hr, ht, hl⟩ := (h n).1 hn
          exact ⟨r, Or.inl hr, ht, hl⟩
        · rintro ⟨r, hr | rfl, ht, hl⟩
          · exact (h n).2 ⟨r, hr, ht, hl⟩
          · exact LineType.noConfusion ht
      · simp only [hA, hP, hS, if_false]
        exact h

theorem foldl_parseLine_inv (lines : List (List Char)) (st : ParseState)
    (h : ValidMatchesAdded st) : ValidMatchesAdded (lines.foldl parseLine st) := by
  induction lines generalizing st with
  | nil => exact h
  | cons l ls ih => exact ih (parseLine st l) (parseLine_inv st l h)

theorem parseFull_inv (patch : List Char) : ValidMatchesAdded (parseFull patch) := by
  refine foldl_parseLine_inv _ _ ?_
  intro n
  simp [initState]

/-- C1 (amended): every added record of the returned (300-capped) list
has its line number in the returned valid set; every member of the valid
set is the line number of an added record of the untruncated parse; and
whenever the untruncated parse has at most 300 records, the valid set
coincides exactly with the added line numbers of the returned list.  The
original claim (exact coincidence with the returned list always) fails
because the 300-entry cap applies to the record list but not to the
set, see the counterexample. -/
theorem claim_C1 (patch : List Char) :
    (∀ r ∈ (parse_diff_for_review patch).1, r.type = LineType.added →
        r.line_number ∈ (parse_diff_for_review patch).2) ∧
    (∀ n ∈ (parse_diff_for_review patch).2, ∃ r ∈ (parseFull patch).context_lines,
        r.type = LineType.added ∧ r.line_number = n) ∧
    ((parseFull patch).context_lines.length ≤ 300 →
      ∀ n : Int, n ∈ (parse_diff_for_review patch).2 ↔
        ∃ r ∈ (parse_diff_for_review patch).1,
          r.type = LineType.added ∧ r.line_number = n) := by
  have hinv := parseFull_inv patch
  unfold ValidMatchesAdded at hinv
  refine ⟨?_, ?_, ?_⟩
  · intro r hr ht
    exact (hinv r.line_number).2 ⟨r, List.take_subset 300 _ hr, ht, rfl⟩
  · intro n hn
    exact (hinv n).1 hn
  · intro hlen n
    show n ∈ (parseFull patch).valid_comment_lines ↔ _
    rw [hinv n]
    unfold parse_diff_for_review
    rw [List.take_of_length_le hlen]

/-- C1 counterexample: a patch of 301 added lines.  Line 301 is in the
returned valid set, but no added record of the returned (truncated)
record list carries it. -/
theorem claim_C1_cex :
    (301 : Int) ∈ (parse_diff_for_review cexPatch).2 ∧
      ∀ r ∈ (parse_diff_for_review cexPatch).1,
        ¬(r.type = LineType.added ∧ r.line_number = 301) := by decide

theorem claim_C1_witness :
    ((parseFull ("@@ -1,3 +10,3 @@\n+b").data).context_lines.length ≤ 300) ∧
      ((11 : Int) ∈ (parse_diff_for_review ("@@ -1,3 +10,3 @@\n+b").data).2 ↔
        ∃ r ∈ (parse_diff_for_review ("@@ -1,3 +10,3 @@\n+b").data).1,
          r.type = LineType.added ∧ r.line_number = 11) :=
  ⟨by decide, (claim_C1 _).2.2 (by decide) 11⟩

theorem filterSuggestionsAux_eq_take (valid : Finset Int) (resp : List RawSuggestion) :
    ∀ acc : List Suggestion, acc.length < MAX_COMMENTS_PER_FILE →
      filterSuggestionsAux valid acc resp =
        acc ++ (acceptedEntries valid resp).take (MAX_COMMENTS_PER_FILE - acc.length) := by
  induction resp with
  | nil =>
    intro acc _
    simp [filterSuggestionsAux, acceptedEntries]
  | cons e rest ih =>
    intro acc hacc
    cases e with
    | malformed =>
      simp only [filterSuggestionsAux, acceptedEntries, List.filterMap_cons]
      exact ih acc hacc
    | entry l c =>
      simp only [filterSuggestionsAux, acceptedEntries, List.filterMap_cons]
      by_cases hl : l ∈ valid
      · simp only [hl, if_true]
        by_cases hfull : MAX_COMMENTS_PER_FILE ≤ (acc ++ [(⟨l, c⟩ : Suggestion)]).length
        · simp only [hfull, if_true]
          have h1 : MAX_COMMENTS_PER_FILE - acc.length = 1 := by
            simp only [List.length_append, List.length_cons, List.length_nil] at hfull
            omega
          rw [h1, List.take_succ_cons, List.take_zero]
        · simp only [hfull, if_false]
          have hlt : (acc ++ [(⟨l, c⟩ : Suggestion)]).length < MAX_COMMENTS_PER_FILE := by
            omega
          rw [ih _ hlt]
          have h2 : MAX_COMMENTS_PER_FILE - acc.length =
              (MAX_COMMENTS_PER_FILE - (acc ++ [(⟨l, c⟩ : Suggestion)]).length) + 1 := by
            simp only [List.length_append, List.length_cons, List.length_nil]
            omega
          rw [h2, List.take_succ_cons, List.append_assoc]
          rfl
      · simp only [hl, if_false]
        exact ih acc hacc

/-- C2: only suggestions whose line number lies in the valid set reach
the posting step, and an entry with an invalid line number (or with a
missing key) is dropped while the loop moves on to the next entry. -/
theorem claim_C2 (valid : Finset Int) (resp : List RawSuggestion) :
    (∀ pc ∈ postedComments valid resp, pc.1 ∈ valid) ∧
    (∀ (acc : List Suggestion) (l : Int) (c : List Char) (rest : List RawSuggestion),
      l ∉ valid → filterSuggestionsAux valid acc (RawSuggestion.entry l c :: rest) =
        filterSuggestionsAux valid acc rest) ∧
    (∀ (acc : List Suggestion) (rest : List RawSuggestion),
      filterSuggestionsAux valid acc (RawSuggestion.malformed :: rest) =
        filterSuggestionsAux valid acc rest) := by
  refine ⟨?_, ?_, ?_⟩
  · intro pc hpc
    obtain ⟨s, hs, rfl⟩ := List.mem_map.1 hpc
    have hs' : s ∈ (acceptedEntries valid resp).take MAX_COMMENTS_PER_FILE := by
      have heq := filterSuggestionsAux_eq_take valid resp [] (by decide)
      unfold filterSuggestions at hs
      rw [heq] at hs
      simpa using hs
    obtain ⟨e, he, hmap⟩ := List.mem_filterMap.1 (List.take_subset _ _ hs')
    cases e with
    | malformed => simp [] at hmap
    | entry l c =>
      by_cases hl : l ∈ valid
      · simp only [hl, if_true, Option.some.injEq] at hmap
        subst hmap
        exact hl
      · simp [hl] at hmap
  · intro acc l c rest hl
    simp [filterSuggestionsAux, hl]
  · intro acc rest
    simp [filterSuggestionsAux]

theorem claim_C2_witness :
    ((2 : Int) ∈ ({2} : Finset Int)) ∧
      filterSuggestionsAux ({2} : Finset Int) [] [RawSuggestion.entry 9 ("x").data] =
        filterSuggestionsAux ({2} : Finset Int) [] [] :=
  ⟨(claim_C2 {2} [RawSuggestion.entry 2 ("ok").data]).1 (2, ("ok.").data) (by decide),
    (claim_C2 {2} []).2.1 [] 9 ("x").data [] (by decide)⟩

/-- C3: when the model response carries more than
`MAX_COMMENTS_PER_FILE` acceptable suggestions, exactly the first
`MAX_COMMENTS_PER_FILE` of them survive, in response order (the list of
survivors is a prefix of the acceptable entries), and interleaved
invalid entries do not lower the count. -/
theorem claim_C3 (valid : Finset Int) (resp : List RawSuggestion)
    (h : MAX_COMMENTS_PER_FILE < (acceptedEntries valid resp).length) :
    filterSuggestions valid resp =
      (acceptedEntries valid resp).take MAX_COMMENTS_PER_FILE ∧
    (filterSuggestions valid resp).length = MAX_COMMENTS_PER_FILE := by
  have heq : filterSuggestions valid resp =
      (acceptedEntries valid resp).take MAX_COMMENTS_PER_FILE := by
    unfold filterSuggestions
    rw [filterSuggestionsAux_eq_take valid resp [] (by decide)]
    simp
  refine ⟨heq, ?_⟩
  rw [heq, List.length_take]
  omega

theorem claim_C3_witness :
    MAX_COMMENTS_PER_FILE <
      (acceptedEntries ({1, 2, 3, 4, 5, 6} : Finset Int)
        [RawSuggestion.entry 1 ("a").data, RawSuggestion.malformed,
         RawSuggestion.entry 2 ("b").data, RawSuggestion.entry 99 ("z").data,
         RawSuggestion.entry 3 ("c").data, RawSuggestion.entry 4 ("d").data,
         RawSuggestion.entry 5 ("e").data, RawSuggestion.entry 6 ("f").data]).length ∧
    filterSuggestions ({1, 2, 3, 4, 5, 6} : Finset Int)
        [RawSuggestion.entry 1 ("a").data, RawSuggestion.malformed,
         RawSuggestion.entry 2 ("b").data, RawSuggestion.entry 99 ("z").data,
         RawSuggestion.entry 3 ("c").data, RawSuggestion.entry 4 ("d").data,
         RawSuggestion.entry 5 ("e").data, RawSuggestion.entry 6 ("f").data] =
      (acceptedEntries ({1, 2, 3, 4, 5, 6} : Finset Int)
        [RawSuggestion.entry 1 ("a").data, RawSuggestion.malformed,
         RawSuggestion.entry 2 ("b").data, RawSuggestion.entry 99 ("z").data,
         RawSuggestion.entry 3 ("c").data, RawSuggestion.entry 4 ("d").data,
         RawSuggestion.entry 5 ("e").data,
         RawSuggestion.entry 6 ("f").data]).take MAX_COMMENTS_PER_FILE ∧
    (filterSuggestions ({1, 2, 3, 4, 5, 6} : Finset Int)
        [RawSuggestion.entry 1 ("a").data, RawSuggestion.malformed,
         RawSuggestion.entry 2 ("b").data, RawSuggestion.entry 99 ("z").data,
         RawSuggestion.entry 3 ("c").data, RawSuggestion.entry 4 ("d").data,
         RawSuggestion.entry 5 ("e").data,
         RawSuggestion.entry 6 ("f").data]).length = MAX_COMMENTS_PER_FILE :=
  ⟨by decide, claim_C3 _ _ (by decide)⟩

/-- C9 (amended): a posted comment body is either empty or ends with
terminal punctuation; a period is appended exactly when the stripped
comment text is nonempty and lacks one.  The original claim (every
posted body ends with punctuation) fails for a whitespace-only comment,
which is posted as the empty string, see the counterexample. -/
theorem claim_C9 (valid : Finset Int) (resp : List RawSuggestion) (c : List Char) :
    (∀ pc ∈ postedComments valid resp, pc.2 = [] ∨ endsWithPunct pc.2 = true) ∧
    (pythonStrip c ≠ [] → endsWithPunct (normalizeComment c) = true) ∧
    (pythonStrip c = [] → normalizeComment c = []) := by
  have hpunct : ∀ d : List Char, pythonStrip d ≠ [] →
      endsWithPunct (normalizeComment d) = true := by
    intro d hd
    unfold normalizeComment
    by_cases hp : endsWithPunct (pythonStrip d) = true
    · simp [hp]
    · have hne : (pythonStrip d).isEmpty = false := by
        simp [List.isEmpty_iff, hd]
      simp only [hne, Bool.not_false, hp, Bool.not_eq_true', Bool.not_true,
        Bool.and_true, Bool.true_and, if_true, Bool.not_false]
      have hsuf : (".".data : List Char) <:+ pythonStrip d ++ ['.'] := by
        have h1 : (".".data : List Char) = ['.'] := rfl
        rw [h1]
        exact List.suffix_append _ _
      have : List.isSuffixOf (".".data : List Char) (pythonStrip d ++ ['.']) = true := by
        rw [List.isSuffixOf_iff_suffix]
        exact hsuf
      simp [endsWithPunct, this]
  have hempty : ∀ d : List Char, pythonStrip d = [] → normalizeComment d = [] := by
    intro d hd
    unfold normalizeComment
    simp [hd]
  refine ⟨?_, hpunct c, hempty c⟩
  intro pc hpc
  obtain ⟨s, _, rfl⟩ := List.mem_map.1 hpc
  by_cases hs : pythonStrip s.comment = []
  · exact Or.inl (hempty s.comment hs)
  · exact Or.inr (hpunct s.comment hs)

/-- C9 counterexample: a suggestion whose comment is whitespace-only is
posted with the empty body, which does not end in terminal
punctuation. -/
theorem claim_C9_cex :
    (((1 : Int), ([] : List Char)) ∈
        postedComments ({1} : Finset Int) [RawSuggestion.entry 1 ("   ").data]) ∧
      endsWithPunct [] = false := by decide

theorem claim_C9_witness :
    pythonStrip ("hi").data ≠ [] ∧
      endsWithPunct (normalizeComment ("hi").data) = true :=
  ⟨by decide, (claim_C9 ∅ [] ("hi").data).2.1 (by decide)⟩

/-- C8: the classifier always lands in the fixed five-element
enumeration, and when no test, SwiftUI, UIKit, special-app-filename or
config marker matches it returns the generic category "Swift"; totality
and determinism hold by construction, the embedding being a pure total
Lean function over arbitrary (filename, content) pairs including empty
strings. -/
theorem claim_C8 (fn c : List Char) :
    categorize_file fn c ∈ (["Test", "SwiftUI", "UI", "Config", "Swift"] : List String) ∧
    (testIndicator fn c = false → swiftuiIndicatorFound c = false →
      uikitIndicatorFound c = false →
      fn ≠ ("AppDelegate.swift").data → fn ≠ ("SceneDelegate.swift").data →
      fn ≠ ("App.swift").data → configIndicatorFound fn = false →
      categorize_file fn c = "Swift") := by
  constructor
  · unfold categorize_file
    repeat' split
    all_goals decide
  · intro h1 h2 h3 h4 h5 h6 h7
    unfold categorize_file
    by_cases hsw : List.isSuffixOf (".swift").data fn
    · simp [h1, h2, h3, h4, h5, h6, hsw]
    · simp [h1, h7, hsw]

theorem claim_C8_witness :
    categorize_file ("Foo.m").data [] ∈
        (["Test", "SwiftUI", "UI", "Config", "Swift"] : List String) ∧
      categorize_file ("Foo.m").data [] = "Swift" :=
  ⟨(claim_C8 ("Foo.m").data []).1,
    (claim_C8 ("Foo.m").data []).2 (by decide) (by decide) (by decide)
      (by decide) (by decide) (by decide) (by decide)⟩

/-- C10: should_review_file rejects a changed file exactly when its
status is "removed", or its patch is absent or empty, or its filename
contains some exclude pattern as a substring; in particular a Swift
source path that merely contains the substring "Generated" is
rejected. -/
theorem claim_C10 :
    (∀ f : ChangedFile, should_review_file f = false ↔
      (f.status = ("removed").data ∨ f.patch = none ∨ f.patch = some [] ∨
        ∃ p ∈ EXCLUDE_PATTERNS, containsSub p f.filename = true)) ∧
    should_review_file ⟨("Sources/GeneratedList.swift").data, ("modified").data,
      some ("+x").data⟩ = false := by
  constructor
  · intro f
    unfold should_review_file
    have hpatch : ((f.patch.getD []).isEmpty = true) ↔
        (f.patch = none ∨ f.patch = some []) := by
      cases f.patch with
      | none => simp
      | some l => simp [List.isEmpty_iff]
    constructor
    · intro hrej
      by_cases h1 : f.status = ("removed").data
      · exact Or.inl h1
      · rw [if_neg h1] at hrej
        by_cases h2 : (EXCLUDE_PATTERNS.any fun p => containsSub p f.filename) = true
        · obtain ⟨p, hp, hcp⟩ := List.any_eq_true.1 h2
          exact Or.inr (Or.inr (Or.inr ⟨p, hp, hcp⟩))
        · rw [if_neg h2] at hrej
          by_cases h3 : (f.patch.getD []).isEmpty = true
          · rcases hpatch.1 h3 with hn | hs
            · exact Or.inr (Or.inl hn)
            · exact Or.inr (Or.inr (Or.inl hs))
          · rw [if_neg h3] at hrej
            simp at hrej
    · intro hr
      rcases hr with h1 | hn | hs | ⟨p, hp, hcp⟩
      · rw [if_pos h1]
      · by_cases h1 : f.status = ("removed").data
        · rw [if_pos h1]
        · rw [if_neg h1]
          by_cases h2 : (EXCLUDE_PATTERNS.any fun p => containsSub p f.filename) = true
          · rw [if_pos h2]
          · rw [if_neg h2, if_pos (hpatch.2 (Or.inl hn))]
      · by_cases h1 : f.status = ("removed").data
        · rw [if_pos h1]
        · rw [if_neg h1]
          by_cases h2 : (EXCLUDE_PATTERNS.any fun p => containsSub p f.filename) = true
          · rw [if_pos h2]
          · rw [if_neg h2, if_pos (hpatch.2 (Or.inr hs))]
      · by_cases h1 : f.status = ("removed").data
        · rw [if_pos h1]
        · rw [if_neg h1, if_pos (List.any_eq_true.2 ⟨p, hp, hcp⟩)]
  · decide
